import Mathlib

/-!
# SDL-Abstraction-Library: the `SDLEngine` shell of `SAL.h`

A shallow embedding of the class `SDLEngine` (file `SAL.h`); the concrete
inputs use the engine that `main.cpp` constructs.

* The engine's fields are a record; the platform (SDL2) is an explicit
  environment: the results of its calls are parameters of the operation that
  makes the call, its event queue is part of the system state, and every call
  that crosses the boundary between the engine and the platform or the derived
  application is appended to a trace.
* `Uint64` values are naturals taken modulo `2 ^ 64`.
* `float dt` is kept as the two integer operands of the division that
  produces it (`Dt`); its value is `Dt.toF32`, computed in a model of IEEE 754
  binary32 (`F32`): conversion and division round to nearest, ties to even,
  and `0 / 0` is NaN.
* C strings are byte lists read up to the first NUL byte; a null pointer is
  `none`.
* The two `while` loops take fuel; the `for` loop of `isKeyDown` has a known
  trip count and recurses on it.
-/

namespace SAL

/-! ## C strings and the character functions used by `isKeyDown` -/

/-- The C string stored at a memory region: the bytes before the first NUL. -/
def cstr (mem : List Nat) : List Nat :=
  mem.takeWhile (fun b => b != 0)

/-- `std::strlen`. -/
def strlen (mem : List Nat) : Nat :=
  (cstr mem).length

/-- `std::toupper` in the "C" locale (the program never calls `setlocale`):
the letters `a`..`z` (97..122) go to `A`..`Z`, every other value is kept. -/
def toupper (c : Nat) : Nat :=
  if 97 ≤ c ∧ c ≤ 122 then c - 32 else c

/-- `sizeof(upperName)`: the local buffer is `char upperName[32]`. -/
def upperNameSize : Nat := 32

/-- A store `buf[i] = v` into a fixed-size buffer; `none` when the index lies
outside the buffer. -/
def writeAt (buf : List Nat) (i v : Nat) : Option (List Nat) :=
  if i < buf.length then some (buf.set i v) else none

/-- The loop `for (i = 0; i < len; ++i) upperName[i] = toupper(name[i])`,
entered at index `i` with `remaining` iterations left. -/
def upperLoop (name : List Nat) : (remaining : Nat) → (i : Nat) → List Nat → Option (List Nat)
  | 0, _, buf => some buf
  | r + 1, i, buf =>
    (writeAt buf i (toupper (name.getD i 0))).bind (upperLoop name r (i + 1))

/-- The local buffer `upperName` after lines 106-111 of `SAL.h`. The buffer
is uninitialised when declared: `junk` gives its initial contents. -/
def upperName (junk : Nat → Nat) (name : List Nat) : Option (List Nat) :=
  let buf0 := (List.range upperNameSize).map junk
  let len := min (strlen name) (upperNameSize - 1)
  (upperLoop name len 0 buf0).bind fun buf => writeAt buf len 0

/-- The two SDL name tables. `scancodeFromName` returns `0`
(`SDL_SCANCODE_UNKNOWN`) for a name it does not recognise. -/
structure Platform where
  scancodeName : Nat → List Nat
  scancodeFromName : List Nat → Nat

/-- `SDL_SCANCODE_UNKNOWN`. -/
def SDL_SCANCODE_UNKNOWN : Nat := 0

/-- `SDLEngine::isKeyDown`. `keys` is the array returned by
`SDL_GetKeyboardState`; `name` is `none` for a null pointer. The result is
`none` when a store leaves the buffer. -/
def isKeyDown (P : Platform) (keys : Nat → Nat) (junk : Nat → Nat)
    (name : Option (List Nat)) : Option Bool :=
  match name with
  | none => some false
  | some mem =>
    if strlen mem = 0 then some false
    else
      (upperName junk mem).bind fun buf =>
        let sc := P.scancodeFromName (cstr buf)
        if sc = SDL_SCANCODE_UNKNOWN then some false
        else some (keys sc != 0)

/-- Two bytes that are equal or are the two cases of one ASCII letter. -/
def caseEq (a b : Nat) : Prop :=
  a = b ∨ (97 ≤ a ∧ a ≤ 122 ∧ b + 32 = a) ∨ (97 ≤ b ∧ b ≤ 122 ∧ a + 32 = b)

/-! ## The engine, the platform and the trace -/

/-- `Uint64` conversion: the value a 64-bit unsigned variable holds. -/
def u64 (x : Nat) : Nat := x % 2 ^ 64

/-- `Uint64` subtraction `a - b`, which wraps around. -/
def u64sub (a b : Nat) : Nat := (u64 a + 2 ^ 64 - u64 b) % 2 ^ 64

/-- An `SDL_Event` as the `switch` of `handleEvents` tells them apart:
`SDL_QUIT`, `SDL_KEYDOWN` and `SDL_KEYUP` (with `e.key.keysym.scancode`), and
any other type. -/
inductive Event where
  | quit
  | keyDown (scancode : Nat)
  | keyUp (scancode : Nat)
  | other (type : Nat)
  deriving DecidableEq, Repr

/-- The value `static_cast<float>(now - lastCounter_) / perfFreq_`, kept as
the operands of the division. -/
structure Dt where
  ticks : Nat
  freq : Nat
  deriving DecidableEq, Repr

/-- A `float` (IEEE 754 binary32): NaN, an infinity with its sign, or the
finite value `(-1)^neg * m * 2^e`. The operations below return a finite
non-zero value with `2^23 ≤ m < 2^24` and `-149 ≤ e ≤ 104`, or with `m < 2^23`
and `e = -149` (subnormal), and zero as `m = 0`, `e = 0`. -/
inductive F32 where
  | nan
  | inf (neg : Bool)
  | fin (neg : Bool) (m : Nat) (e : Int)
  deriving DecidableEq, Repr

/-- The number of binary digits of `n`, with `fuel` halvings allowed. -/
def bitLengthAux : (fuel : Nat) → Nat → Nat
  | 0, _ => 0
  | fuel + 1, n => if n = 0 then 0 else bitLengthAux fuel (n / 2) + 1

/-- The number of binary digits of `n` (0 for 0). -/
def bitLength (n : Nat) : Nat := bitLengthAux n n

/-- Drop the low `sh` bits of `N`, rounding to nearest, ties to even;
`sticky` tells that the exact value lies strictly above `N`. -/
def roundShift (N sh : Nat) (sticky : Bool) : Nat :=
  let m0 := N / 2 ^ sh
  let rem := N % 2 ^ sh
  let half := 2 ^ (sh - 1)
  if half < rem ∨ (rem = half ∧ (sticky = true ∨ m0 % 2 = 1)) then m0 + 1 else m0

/-- The `float` with rounded significand `m` at exponent `e`: a significand
that rounded up to `2^24` moves to the next exponent, and a value beyond the
largest finite `float` is an infinity. -/
def F32.pack (neg : Bool) (m : Nat) (e : Int) : F32 :=
  if m = 0 then F32.fin neg 0 0
  else if m = 2 ^ 24 then (if 104 < e + 1 then F32.inf neg else F32.fin neg (2 ^ 23) (e + 1))
  else if 104 < e then F32.inf neg
  else F32.fin neg m e

/-- The `float` nearest to `(a / b) * 2^E` for `a, b > 0`: the quotient is
taken with at least 27 significant bits and a sticky bit, then rounded to 24
bits, or to the bits above `2^-149` in the subnormal range. -/
def F32.roundRatio (neg : Bool) (a b : Nat) (E : Int) : F32 :=
  let s := 26 + bitLength b
  let N := a * 2 ^ s / b
  let sticky := decide (a * 2 ^ s % b ≠ 0)
  let E1 := E - s
  let e := max (E1 + bitLength N - 24) (-149)
  F32.pack neg (roundShift N (e - E1).toNat sticky) e

/-- The conversion of an unsigned integer to `float`, as in
`static_cast<float>(now - lastCounter_)` and in the promotion of `perfFreq_`. -/
def F32.ofNat (n : Nat) : F32 :=
  if n = 0 then F32.fin false 0 0 else F32.roundRatio false n 1 0

/-- The `float` division `x / y`. -/
def F32.div : F32 → F32 → F32
  | F32.nan, _ => F32.nan
  | _, F32.nan => F32.nan
  | F32.inf _, F32.inf _ => F32.nan
  | F32.inf n1, F32.fin n2 _ _ => F32.inf (n1 != n2)
  | F32.fin n1 _ _, F32.inf n2 => F32.fin (n1 != n2) 0 0
  | F32.fin n1 m1 e1, F32.fin n2 m2 e2 =>
    if m2 = 0 then (if m1 = 0 then F32.nan else F32.inf (n1 != n2))
    else if m1 = 0 then F32.fin (n1 != n2) 0 0
    else F32.roundRatio (n1 != n2) m1 m2 (e1 - e2)

/-- The comparison `x >= 0.0f`: false for NaN and for negative values. -/
def F32.geZero : F32 → Bool
  | F32.nan => false
  | F32.inf neg => !neg
  | F32.fin neg m _ => !neg || decide (m = 0)

/-- The `float` that `update` receives:
`static_cast<float>(now - lastCounter_) / perfFreq_`. -/
def Dt.toF32 (d : Dt) : F32 :=
  F32.div (F32.ofNat d.ticks) (F32.ofNat d.freq)

/-- The calls that leave the engine: into SDL, into `std::cerr`, and into the
virtual hooks of the derived application. -/
inductive Action where
  | sdlInit
  | logError
  | createWindow (title : List Nat) (width height : Int) (flags : Nat)
  | createRenderer (window : Option Nat)
  | getPerformanceFrequency (result : Nat)
  | getPerformanceCounter (result : Nat)
  | pollEvent (result : Option Event)
  | onKeyDown (key : List Nat)
  | onKeyUp (key : List Nat)
  | update (dt : Dt)
  | render
  | renderPresent (renderer : Option Nat)
  | destroyRenderer (renderer : Nat)
  | destroyWindow (window : Nat)
  | sdlQuit
  deriving DecidableEq, Repr

/-- The data members of `SDLEngine`. A pointer is `none` when null. -/
structure SDLEngine where
  title_ : List Nat
  width_ : Int
  height_ : Int
  flags_ : Nat
  window_ : Option Nat
  renderer_ : Option Nat
  isRunning_ : Bool
  perfFreq_ : Nat
  lastCounter_ : Nat
  deriving DecidableEq, Repr

/-- The engine together with the platform's pending event queue and the trace
of calls made so far. -/
structure Sys where
  eng : SDLEngine
  queue : List Event
  trace : List Action
  deriving DecidableEq, Repr

/-- Record one call at the end of the trace. -/
def Sys.emit (s : Sys) (a : Action) : Sys :=
  { s with trace := s.trace ++ [a] }

/-- The constructor `SDLEngine::SDLEngine`. -/
def SDLEngine.new (title : List Nat) (width height : Int) (flags : Nat) : SDLEngine :=
  { title_ := title, width_ := width, height_ := height, flags_ := flags,
    window_ := none, renderer_ := none, isRunning_ := false,
    perfFreq_ := 0, lastCounter_ := 0 }

/-- A freshly constructed engine on a platform with no pending event. -/
def Sys.new (title : List Nat) (width height : Int) (flags : Nat) : Sys :=
  { eng := SDLEngine.new title width height flags, queue := [], trace := [] }

/-- What the platform answers to the calls of one `init()`: the return code
of `SDL_Init`, the two handles (`none` for a null pointer), the tick frequency
and the counter reading. -/
structure InitOutcome where
  initRc : Int
  window : Option Nat
  renderer : Option Nat
  freq : Nat
  counter : Nat
  deriving DecidableEq, Repr

/-- `SDLEngine::init`. -/
def init (o : InitOutcome) (s : Sys) : Bool × Sys :=
  let s := s.emit Action.sdlInit
  if o.initRc ≠ 0 then (false, s.emit Action.logError)
  else
    let s := s.emit (Action.createWindow s.eng.title_ s.eng.width_ s.eng.height_ s.eng.flags_)
    let s := { s with eng := { s.eng with window_ := o.window } }
    if s.eng.window_.isNone then (false, s.emit Action.logError)
    else
      let s := s.emit (Action.createRenderer s.eng.window_)
      let s := { s with eng := { s.eng with renderer_ := o.renderer } }
      if s.eng.renderer_.isNone then (false, s.emit Action.logError)
      else
        let s := s.emit (Action.getPerformanceFrequency (u64 o.freq))
        let s := { s with eng := { s.eng with perfFreq_ := u64 o.freq } }
        let s := s.emit (Action.getPerformanceCounter (u64 o.counter))
        let s := { s with eng := { s.eng with lastCounter_ := u64 o.counter } }
        let s := { s with eng := { s.eng with isRunning_ := true } }
        (true, s)

/-- `SDL_PollEvent`: pops the oldest pending event, if there is one. -/
def pollEvent (s : Sys) : Option Event × Sys :=
  match s.queue with
  | [] => (none, s.emit (Action.pollEvent none))
  | e :: q => (some e, { s with queue := q }.emit (Action.pollEvent (some e)))

/-- The `switch (e.type)` of `handleEvents`. -/
def dispatch (P : Platform) (e : Event) (s : Sys) : Sys :=
  match e with
  | Event.quit => { s with eng := { s.eng with isRunning_ := false } }
  | Event.keyDown sc => s.emit (Action.onKeyDown (P.scancodeName sc))
  | Event.keyUp sc => s.emit (Action.onKeyUp (P.scancodeName sc))
  | Event.other _ => s

/-- `SDLEngine::handleEvents`: `while (SDL_PollEvent(&e)) switch ...`; `none`
when the fuel runs out before the queue is empty. -/
def handleEvents (P : Platform) : (fuel : Nat) → Sys → Option Sys
  | 0, _ => none
  | fuel + 1, s =>
    match pollEvent s with
    | (none, s1) => some s1
    | (some e, s1) => handleEvents P fuel (dispatch P e s1)

/-- The platform receives a batch of events: they queue up behind the ones
already pending. -/
def arrive (batch : List Event) (s : Sys) : Sys :=
  { s with queue := s.queue ++ batch }

/-- The body of the loop of `run()`, lines 65-73: `now` is the counter
reading of this iteration and `batch` the events that arrive before it polls. -/
def frame (P : Platform) (evFuel : Nat) (now : Nat) (batch : List Event) (s : Sys) :
    Option Sys :=
  let now := u64 now
  let s := s.emit (Action.getPerformanceCounter now)
  let dt : Dt := { ticks := u64sub now s.eng.lastCounter_, freq := s.eng.perfFreq_ }
  let s := { s with eng := { s.eng with lastCounter_ := now } }
  (handleEvents P evFuel (arrive batch s)).map fun s =>
    ((s.emit (Action.update dt)).emit Action.render).emit
      (Action.renderPresent s.eng.renderer_)

/-- The loop `while (isRunning_) ...` of `run()`, entered before iteration
`k` (counted from 0); `clock k` and `batches k` are the reading and the events
of iteration `k`. `none` when the fuel runs out. -/
def runLoop (P : Platform) (evFuel : Nat) (clock : Nat → Nat) (batches : Nat → List Event) :
    (fuel : Nat) → (k : Nat) → Sys → Option Sys
  | 0, _, _ => none
  | fuel + 1, k, s =>
    if s.eng.isRunning_ then
      (frame P evFuel (clock k) (batches k) s).bind
        (runLoop P evFuel clock batches fuel (k + 1))
    else some s

/-- `SDLEngine::run`. -/
def run (P : Platform) (evFuel fuel : Nat) (clock : Nat → Nat) (batches : Nat → List Event)
    (s : Sys) : Option Sys :=
  runLoop P evFuel clock batches fuel 0 s

/-- `SDLEngine::cleanup`. -/
def cleanup (s : Sys) : Sys :=
  let s := match s.eng.renderer_ with
    | some r => s.emit (Action.destroyRenderer r)
    | none => s
  let s := match s.eng.window_ with
    | some w => s.emit (Action.destroyWindow w)
    | none => s
  s.emit Action.sdlQuit

/-- The destructor `SDLEngine::~SDLEngine`. -/
def destructor (s : Sys) : Sys :=
  cleanup s

/-! ## Observations used to state the properties -/

/-- The state in which the loop of `run()` stands once it has completed its
first `m` iterations; `none` when the loop has left before that (or a fuel ran
out). -/
def afterFrames (P : Platform) (evFuel : Nat) (clock : Nat → Nat)
    (batches : Nat → List Event) : (m : Nat) → Sys → Option Sys
  | 0, s => some s
  | m + 1, s =>
    (afterFrames P evFuel clock batches m s).bind fun s1 =>
      if s1.eng.isRunning_ then frame P evFuel (clock m) (batches m) s1 else none

/-- The hook call that an event is replaced by, if any. -/
def hookOf (P : Platform) : Event → Option Action
  | Event.keyDown sc => some (Action.onKeyDown (P.scancodeName sc))
  | Event.keyUp sc => some (Action.onKeyUp (P.scancodeName sc))
  | _ => none

/-- The calls into `onKeyDown` and `onKeyUp` of a trace, in order. -/
def hookCalls (t : List Action) : List Action :=
  t.filter fun a =>
    match a with
    | Action.onKeyDown _ => true
    | Action.onKeyUp _ => true
    | _ => false

/-- The results of the `SDL_PollEvent` calls of a trace, in order. -/
def polled (t : List Action) : List (Option Event) :=
  t.filterMap fun a =>
    match a with
    | Action.pollEvent r => some r
    | _ => none

/-- The calls `handleEvents` makes on a queue: every event is polled and
dispatched before the next one is polled, and a last poll finds the queue
empty. -/
def eventActions (P : Platform) (q : List Event) : List Action :=
  q.flatMap (fun e => Action.pollEvent (some e) :: (hookOf P e).toList)
    ++ [Action.pollEvent none]

/-- The state `handleEvents` leaves: the queue is empty, the running flag is
cleared when the queue held a quit event, the calls of `eventActions` were
made, and no other field changed. -/
def drained (P : Platform) (s : Sys) : Sys :=
  { eng := { s.eng with isRunning_ := s.eng.isRunning_ && !decide (Event.quit ∈ s.queue) },
    queue := [],
    trace := s.trace ++ eventActions P s.queue }

/-- The five phases of one iteration as the specification orders them: read
the clock (`now`), drain the events, `update(dt)`, `render()`, present. -/
def expectedFrame (P : Platform) (dt : Dt) (renderer : Option Nat)
    (now : Nat) (batch : List Event) : List Action :=
  [Action.getPerformanceCounter now] ++ eventActions P batch ++
    [Action.update dt, Action.render, Action.renderPresent renderer]

/-- The stored reading with which iteration `k` starts: the one the engine
held before the loop for `k = 0`, the reading of iteration `k - 1` after. -/
def lastReading (last0 : Nat) (clock : Nat → Nat) : Nat → Nat
  | 0 => last0
  | k + 1 => u64 (clock k)

/-- The `dt` of iteration `k`: the wrapped difference between its reading and
the stored one, over the tick frequency. -/
def frameDt (last0 freq : Nat) (clock : Nat → Nat) (k : Nat) : Dt :=
  { ticks := u64sub (u64 (clock k)) (lastReading last0 clock k), freq := freq }

/-- The trace of the first `m` iterations: one `expectedFrame` after the
other. -/
def expectedTrace (P : Platform) (last0 freq : Nat) (renderer : Option Nat)
    (clock : Nat → Nat) (batches : Nat → List Event) (m : Nat) : List Action :=
  (List.range m).flatMap fun k =>
    expectedFrame P (frameDt last0 freq clock k) renderer (u64 (clock k)) (batches k)

/-- The state after `m` iterations that started from `s` with an empty
queue: the stored reading is the one of the last iteration, the queue is
empty, the trace grew by `expectedTrace`, and the running flag is `running`. -/
def framesState (P : Platform) (clock : Nat → Nat) (batches : Nat → List Event)
    (m : Nat) (running : Bool) (s : Sys) : Sys :=
  { eng := { s.eng with
      lastCounter_ := lastReading s.eng.lastCounter_ clock m, isRunning_ := running },
    queue := [],
    trace := s.trace ++
      expectedTrace P s.eng.lastCounter_ s.eng.perfFreq_ s.eng.renderer_ clock batches m }

/-- The number of calls of `update` in a trace. -/
def countUpdate (t : List Action) : Nat :=
  t.countP fun a =>
    match a with
    | Action.update _ => true
    | _ => false

/-- The number of calls of `render` in a trace. -/
def countRender (t : List Action) : Nat :=
  t.countP fun a =>
    match a with
    | Action.render => true
    | _ => false

/-- The number of calls of `SDL_RenderPresent` in a trace. -/
def countPresent (t : List Action) : Nat :=
  t.countP fun a =>
    match a with
    | Action.renderPresent _ => true
    | _ => false

/-- The `dt` arguments of the `update` calls of a trace, in order. -/
def updateDts (t : List Action) : List Dt :=
  t.filterMap fun a =>
    match a with
    | Action.update d => some d
    | _ => none

/-- The number of calls of `SDL_DestroyRenderer` on handle `r` in a trace. -/
def countDestroyRenderer (r : Nat) (t : List Action) : Nat :=
  t.count (Action.destroyRenderer r)

/-- The number of calls of `SDL_DestroyWindow` on handle `w` in a trace. -/
def countDestroyWindow (w : Nat) (t : List Action) : Nat :=
  t.count (Action.destroyWindow w)

/-- The operations of the engine, each with what the platform supplies to
it. -/
inductive Op where
  | init (o : InitOutcome)
  | handleEvents (batch : List Event)
  | iteration (now : Nat) (batch : List Event)
  | run (fuel : Nat) (clock : Nat → Nat) (batches : Nat → List Event)
  | cleanup

/-- One operation applied to the system. -/
def applyOp (P : Platform) (evFuel : Nat) : Op → Sys → Option Sys
  | Op.init o, s => some (init o s).2
  | Op.handleEvents batch, s => handleEvents P evFuel (arrive batch s)
  | Op.iteration now batch, s => frame P evFuel now batch s
  | Op.run fuel clock batches, s => run P evFuel fuel clock batches s
  | Op.cleanup, s => some (cleanup s)

/-- A sequence of operations applied from left to right. -/
def applyOps (P : Platform) (evFuel : Nat) : List Op → Sys → Option Sys
  | [], s => some s
  | op :: ops, s => (applyOp P evFuel op s).bind (applyOps P evFuel ops)

/-- An `init()` whose platform calls all succeed. -/
def InitOutcome.succeeds (o : InitOutcome) : Bool :=
  o.initRc == 0 && o.window.isSome && o.renderer.isSome

/-- The operation is an `init()` whose platform calls all succeed. -/
def Op.isSuccessfulInit : Op → Bool
  | Op.init o => o.succeeds
  | _ => false

/-- The fuel of the event loop covers what is pending (at most `pending`
events) together with what arrives with the operation, and a `run` has fuel
for the test of its loop condition. -/
def Op.fuelOk (evFuel pending : Nat) : Op → Bool
  | Op.handleEvents batch => decide (pending + batch.length < evFuel)
  | Op.iteration _ batch => decide (pending + batch.length < evFuel)
  | Op.run fuel _ _ => decide (0 < fuel)
  | _ => true

/-! ## Concrete inputs -/

/-- A name table that knows the one key "A" (scancode 4, `SDL_SCANCODE_A`). -/
def demoPlatform : Platform where
  scancodeName := fun sc => if sc = 4 then [65] else []
  scancodeFromName := fun n => if n = [65] then 4 else 0

/-- A keyboard on which the key "A" is held. -/
def demoKeys : Nat → Nat := fun sc => if sc = 4 then 1 else 0

/-- The bytes of "not_a_real_key". -/
def notARealKey : List Nat :=
  [110, 111, 116, 95, 97, 95, 114, 101, 97, 108, 95, 107, 101, 121]

/-- A platform on which every call of `init()` succeeds: window handle 1,
renderer handle 2, 1000 ticks per second, counter at 5. -/
def okOutcome : InitOutcome :=
  { initRc := 0, window := some 1, renderer := some 2, freq := 1000, counter := 5 }

/-- The engine of `main.cpp`, `SDLEngine("Title", 640, 480)`, with the default
flags `SDL_WINDOW_SHOWN | SDL_WINDOW_RESIZABLE`. -/
def demoSys : Sys :=
  Sys.new [84, 105, 116, 108, 101] 640 480 36

/-- The quit event arrives on the third frame (index 2), a key press on the
second. -/
def demoBatches : Nat → List Event :=
  fun k => if k = 2 then [Event.quit] else if k = 1 then [Event.keyDown 4] else []

/-- A counter that advances 16 ticks per frame from 21. -/
def demoClock : Nat → Nat :=
  fun k => 21 + 16 * k

/-! ## Lemmas on the buffer -/

theorem toupper_eq_zero_iff (c : Nat) : toupper c = 0 ↔ c = 0 := by
  unfold toupper
  split <;> omega

theorem toupper_idem (c : Nat) : toupper (toupper c) = toupper c := by
  simp only [toupper]
  split_ifs <;> omega

theorem toupper_of_caseEq {a b : Nat} (h : caseEq a b) : toupper a = toupper b := by
  unfold caseEq at h
  simp only [toupper]
  split_ifs <;> omega

theorem cstr_ne_zero {mem : List Nat} {b : Nat} (h : b ∈ cstr mem) : b ≠ 0 := by
  have := List.mem_takeWhile_imp h
  simpa using this

theorem cstr_eq_self {l : List Nat} (h : ∀ b ∈ l, b ≠ 0) : cstr l = l := by
  unfold cstr
  rw [List.takeWhile_eq_self_iff]
  intro b hb
  simpa using h b hb

theorem cstr_append_zero {pre rest : List Nat} (h : ∀ b ∈ pre, b ≠ 0) :
    cstr (pre ++ 0 :: rest) = pre := by
  unfold cstr
  rw [List.takeWhile_append_of_pos]
  · simp
  · intro b hb
    simpa using h b hb

theorem cstr_map_toupper (l : List Nat) : cstr (l.map toupper) = (cstr l).map toupper := by
  induction l with
  | nil => rfl
  | cons a t ih =>
    unfold cstr at ih ⊢
    by_cases ha : a = 0
    · subst ha
      simp [toupper]
    · have hu : toupper a ≠ 0 := fun h => ha ((toupper_eq_zero_iff a).1 h)
      simp [List.takeWhile_cons, ha, hu, ih]

theorem cstr_getElem? (mem : List Nat) (j : Nat) (hj : j < strlen mem) :
    mem[j]? = (cstr mem)[j]? := by
  unfold strlen cstr at *
  induction mem generalizing j with
  | nil => simp at hj
  | cons a t ih =>
    by_cases ha : a = 0
    · subst ha
      simp at hj
    · simp only [List.takeWhile_cons, bne_iff_ne, ne_eq, ha, not_false_eq_true, ↓reduceIte] at hj ⊢
      cases j with
      | zero => simp
      | succ k =>
        simp only [List.length_cons, Nat.add_lt_add_iff_right] at hj
        simpa using ih k hj

theorem upperLoop_spec (name : List Nat) (r : Nat) :
    ∀ (i : Nat) (buf : List Nat), i + r ≤ buf.length →
      ∃ out, upperLoop name r i buf = some out ∧ out.length = buf.length ∧
        ∀ j, out[j]? =
          if i ≤ j ∧ j < i + r then some (toupper (name.getD j 0)) else buf[j]? := by
  induction r with
  | zero =>
    intro i buf _
    refine ⟨buf, rfl, rfl, ?_⟩
    intro j
    have : ¬ (i ≤ j ∧ j < i + 0) := by omega
    rw [if_neg this]
  | succ r ih =>
    intro i buf h
    have hi : i < buf.length := by omega
    obtain ⟨out, ho, hl, hg⟩ := ih (i + 1) (buf.set i (toupper (name.getD i 0)))
      (by rw [List.length_set]; omega)
    refine ⟨out, ?_, ?_, ?_⟩
    · unfold upperLoop writeAt
      rw [if_pos hi]
      exact ho
    · rw [hl, List.length_set]
    · intro j
      rw [hg j, List.getElem?_set]
      by_cases hij : i = j
      · subst hij
        have h1 : ¬ (i + 1 ≤ i ∧ i < i + 1 + r) := by omega
        have h2 : i ≤ i ∧ i < i + (r + 1) := by omega
        simp [h1, h2, hi]
      · by_cases hc : i + 1 ≤ j ∧ j < i + 1 + r
        · have h2 : i ≤ j ∧ j < i + (r + 1) := by omega
          simp [hc, h2]
        · have h2 : ¬ (i ≤ j ∧ j < i + (r + 1)) := by omega
          simp [hc, h2, hij]

/-- The buffer always receives the upper-cased first 31 characters of the
name, NUL-terminated, and no store leaves the buffer. -/
theorem upperName_spec (junk : Nat → Nat) (mem : List Nat) :
    ∃ buf, upperName junk mem = some buf ∧ buf.length = upperNameSize ∧
      cstr buf = ((cstr mem).take 31).map toupper := by
  have hlen : min (strlen mem) (upperNameSize - 1) ≤ 31 := by
    simp [upperNameSize]
  obtain ⟨out, ho, hl, hg⟩ := upperLoop_spec mem (min (strlen mem) (upperNameSize - 1)) 0
    ((List.range upperNameSize).map junk) (by simp [upperNameSize])
  have hl32 : out.length = 32 := by simpa [upperNameSize] using hl
  set len := min (strlen mem) (upperNameSize - 1) with hlen_def
  refine ⟨out.set len 0, ?_, ?_, ?_⟩
  · have : len < out.length := by omega
    simp [upperName, ← hlen_def, ho, writeAt, this]
  · rw [List.length_set, hl32]; rfl
  · have hpre : (out.set len 0).take len = ((cstr mem).take 31).map toupper := by
      apply List.ext_getElem?
      intro j
      rw [List.getElem?_take, List.getElem?_map, List.getElem?_take, List.getElem?_set, hg j]
      by_cases hj : j < len
      · have h1 : j < 31 := by omega
        have h2 : j < strlen mem := lt_of_lt_of_le hj (min_le_left _ _)
        have h3 : len ≠ j := by omega
        have h4 : 0 ≤ j ∧ j < 0 + len := by omega
        simp only [hj, h1, h3, h4, ↓reduceIte, and_self]
        rw [List.getD_eq_getElem?_getD, cstr_getElem? mem j h2]
        have h5 : j < (cstr mem).length := h2
        simp [List.getElem?_eq_getElem h5]
      · simp only [hj, ↓reduceIte]
        by_cases h1 : j < 31
        · have h2 : strlen mem ≤ j := by
            simp only [len, upperNameSize] at hj
            omega
          have h3 : (cstr mem)[j]? = none := by
            rw [List.getElem?_eq_none_iff]
            exact h2
          simp [h1, h3]
        · simp [h1]
    have hsplit : out.set len 0 = (out.set len 0).take len ++ 0 :: (out.set len 0).drop (len + 1) := by
      have hlt : len < (out.set len 0).length := by rw [List.length_set]; omega
      conv_lhs => rw [← List.take_append_drop len (out.set len 0)]
      congr 1
      rw [List.drop_eq_getElem_cons hlt]
      simp
    rw [hsplit, hpre]
    apply cstr_append_zero
    intro b hb
    rw [List.mem_map] at hb
    obtain ⟨a, ha, rfl⟩ := hb
    intro h0
    exact cstr_ne_zero (List.mem_of_mem_take ha) ((toupper_eq_zero_iff a).1 h0)

/-- Closed form of `isKeyDown` on a non-null name. -/
theorem isKeyDown_some (P : Platform) (keys junk : Nat → Nat) (mem : List Nat) :
    isKeyDown P keys junk (some mem) =
      some (decide (cstr mem ≠ []) &&
        (decide (P.scancodeFromName (((cstr mem).take 31).map toupper) ≠ 0) &&
          (keys (P.scancodeFromName (((cstr mem).take 31).map toupper)) != 0))) := by
  obtain ⟨buf, hb, _, hc⟩ := upperName_spec junk mem
  unfold isKeyDown
  by_cases h0 : strlen mem = 0
  · have : cstr mem = [] := List.length_eq_zero.1 h0
    simp [h0, this]
  · have : cstr mem ≠ [] := fun h => h0 (by simp [strlen, h])
    simp only [h0, ↓reduceIte, hb, SDL_SCANCODE_UNKNOWN]
    show (if P.scancodeFromName (cstr buf) = 0 then some false
      else some (keys (P.scancodeFromName (cstr buf)) != 0)) = _
    rw [hc]
    by_cases hs : P.scancodeFromName (((cstr mem).take 31).map toupper) = 0
    · rw [if_pos hs, hs]
      simp
    · rw [if_neg hs]
      simp only [ne_eq, this, not_false_eq_true, decide_True, hs, Bool.true_and]

/-! ## Lemmas on the event loop and the frame loop -/

theorem eventActions_cons (P : Platform) (e : Event) (q : List Event) :
    eventActions P (e :: q) =
      Action.pollEvent (some e) :: ((hookOf P e).toList ++ eventActions P q) := by
  simp [eventActions, List.flatMap_cons]

theorem handleEvents_eq_drained (P : Platform) :
    ∀ (q : List Event) (fuel : Nat) (s : Sys), s.queue = q → q.length < fuel →
      handleEvents P fuel s = some (drained P s) := by
  intro q
  induction q with
  | nil =>
    intro fuel s hq hf
    obtain ⟨f, rfl⟩ : ∃ f, fuel = f + 1 := ⟨fuel - 1, by omega⟩
    simp [handleEvents, pollEvent, hq, drained, Sys.emit, eventActions]
  | cons e q ih =>
    intro fuel s hq hf
    obtain ⟨f, rfl⟩ : ∃ f, fuel = f + 1 := ⟨fuel - 1, by simp at hf; omega⟩
    have hf2 : q.length < f := by simpa using hf
    cases e <;>
    · simp only [handleEvents, pollEvent, hq, dispatch, Sys.emit]
      rw [ih f _ rfl hf2]
      simp [drained, hq, eventActions_cons, hookOf]

theorem handleEvents_some (P : Platform) :
    ∀ (fuel : Nat) (s s1 : Sys), handleEvents P fuel s = some s1 → s1 = drained P s := by
  intro fuel
  induction fuel with
  | zero =>
    intro s s1 h
    simp [handleEvents] at h
  | succ f ih =>
    intro s s1 h
    cases hq : s.queue with
    | nil =>
      simp only [handleEvents, pollEvent, hq, Option.some.injEq] at h
      subst h
      simp [drained, hq, Sys.emit, eventActions]
    | cons e q =>
      simp only [handleEvents, pollEvent, hq] at h
      have h2 := ih _ _ h
      subst h2
      cases e <;> simp [drained, hq, eventActions_cons, hookOf, dispatch, Sys.emit]

theorem frame_eq_gen (P : Platform) (evFuel now : Nat) (batch : List Event) (s : Sys)
    (hf : (s.queue ++ batch).length < evFuel) :
    frame P evFuel now batch s =
      some { eng := { s.eng with
               lastCounter_ := u64 now,
               isRunning_ := s.eng.isRunning_ && !decide (Event.quit ∈ s.queue ++ batch) },
             queue := [],
             trace := s.trace ++ ([Action.getPerformanceCounter (u64 now)] ++
               eventActions P (s.queue ++ batch) ++
               [Action.update
                  { ticks := u64sub (u64 now) s.eng.lastCounter_, freq := s.eng.perfFreq_ },
                Action.render, Action.renderPresent s.eng.renderer_]) } := by
  unfold frame
  simp only
  rw [handleEvents_eq_drained P (s.queue ++ batch) evFuel _ (by simp [arrive, Sys.emit]) hf]
  simp [drained, arrive, Sys.emit]

theorem frame_eq (P : Platform) (evFuel now : Nat) (batch : List Event) (s : Sys)
    (hq : s.queue = []) (hf : batch.length < evFuel) :
    frame P evFuel now batch s =
      some { eng := { s.eng with
               lastCounter_ := u64 now,
               isRunning_ := s.eng.isRunning_ && !decide (Event.quit ∈ batch) },
             queue := [],
             trace := s.trace ++ expectedFrame P
               { ticks := u64sub (u64 now) s.eng.lastCounter_, freq := s.eng.perfFreq_ }
               s.eng.renderer_ (u64 now) batch } := by
  rw [frame_eq_gen P evFuel now batch s (by simpa [hq] using hf)]
  simp [hq, expectedFrame]

theorem frame_some (P : Platform) (evFuel now : Nat) (batch : List Event) (s b : Sys)
    (h : frame P evFuel now batch s = some b) :
    b.queue = [] ∧ b.eng.lastCounter_ = u64 now ∧ b.eng.perfFreq_ = s.eng.perfFreq_ ∧
      b.eng.renderer_ = s.eng.renderer_ := by
  unfold frame at h
  simp only [Option.map_eq_some'] at h
  obtain ⟨d, hd, rfl⟩ := h
  have := handleEvents_some P _ _ _ hd
  subst this
  simp [drained, Sys.emit, arrive]

theorem afterFrames_inv (P : Platform) (evFuel : Nat) (clock : Nat → Nat)
    (batches : Nat → List Event) (s : Sys) (hq : s.queue = []) :
    ∀ (k : Nat) (a : Sys), afterFrames P evFuel clock batches k s = some a →
      a.queue = [] ∧ a.eng.lastCounter_ = lastReading s.eng.lastCounter_ clock k ∧
        a.eng.perfFreq_ = s.eng.perfFreq_ ∧ a.eng.renderer_ = s.eng.renderer_ := by
  intro k
  induction k with
  | zero =>
    intro a h
    simp only [afterFrames, Option.some.injEq] at h
    subst h
    simp [hq, lastReading]
  | succ k ih =>
    intro a h
    simp only [afterFrames] at h
    cases h1 : afterFrames P evFuel clock batches k s with
    | none => simp [h1] at h
    | some s1 =>
      rw [h1, Option.some_bind] at h
      by_cases hr : s1.eng.isRunning_ = true
      · rw [if_pos hr] at h
        obtain ⟨h2, h3, h4, h5⟩ := frame_some P evFuel _ _ _ _ h
        obtain ⟨_, _, h7, h8⟩ := ih s1 h1
        exact ⟨h2, by simpa [lastReading] using h3, h4.trans h7, h5.trans h8⟩
      · rw [if_neg hr] at h
        simp at h

theorem u64sub_eq_sub {now last : Nat} (h1 : last ≤ now) (h2 : now < 2 ^ 64) :
    u64sub now last = now - last := by
  simp only [u64sub, u64]
  omega

theorem u64_of_lt {x : Nat} (h : x < 2 ^ 64) : u64 x = x := by
  simp only [u64]
  omega

theorem expectedTrace_succ (P : Platform) (last0 freq : Nat) (renderer : Option Nat)
    (clock : Nat → Nat) (batches : Nat → List Event) (m : Nat) :
    expectedTrace P last0 freq renderer clock batches (m + 1) =
      expectedTrace P last0 freq renderer clock batches m ++
        expectedFrame P (frameDt last0 freq clock m) renderer (u64 (clock m)) (batches m) := by
  simp [expectedTrace, List.range_succ, List.flatMap_append]

theorem afterFrames_running (P : Platform) (evFuel : Nat) (clock : Nat → Nat)
    (batches : Nat → List Event) (s : Sys) (hr : s.eng.isRunning_ = true) (hq : s.queue = []) :
    ∀ m, (∀ k, k < m → (batches k).length < evFuel) →
      (∀ k, k < m → Event.quit ∉ batches k) →
      afterFrames P evFuel clock batches m s = some (framesState P clock batches m true s) := by
  intro m
  induction m with
  | zero =>
    intro _ _
    obtain ⟨eng, queue, trace⟩ := s
    simp only at hr hq
    subst hq
    simp [afterFrames, framesState, expectedTrace, lastReading, ← hr]
  | succ m ih =>
    intro hf hn
    have h1 := ih (fun k hk => hf k (by omega)) (fun k hk => hn k (by omega))
    have hnq : Event.quit ∉ batches m := hn m (by omega)
    simp only [afterFrames, h1, Option.some_bind]
    rw [if_pos (by simp [framesState])]
    rw [frame_eq P evFuel (clock m) (batches m) _ (by simp [framesState]) (hf m (by omega))]
    simp [framesState, expectedTrace_succ, lastReading, frameDt, hnq]

theorem afterFrames_quit (P : Platform) (evFuel : Nat) (clock : Nat → Nat)
    (batches : Nat → List Event) (s : Sys) (hr : s.eng.isRunning_ = true) (hq : s.queue = [])
    (m : Nat) (hf : ∀ k, k < m + 1 → (batches k).length < evFuel)
    (hn : ∀ k, k < m → Event.quit ∉ batches k) (hquit : Event.quit ∈ batches m) :
    afterFrames P evFuel clock batches (m + 1) s =
      some (framesState P clock batches (m + 1) false s) := by
  have h1 := afterFrames_running P evFuel clock batches s hr hq m
    (fun k hk => hf k (by omega)) hn
  simp only [afterFrames, h1, Option.some_bind]
  rw [if_pos (by simp [framesState])]
  rw [frame_eq P evFuel (clock m) (batches m) _ (by simp [framesState]) (hf m (by omega))]
  simp [framesState, expectedTrace_succ, lastReading, frameDt, hquit]

theorem runLoop_of_afterFrames (P : Platform) (evFuel : Nat) (clock : Nat → Nat)
    (batches : Nat → List Event) (s0 : Sys) :
    ∀ (n fuel : Nat) (s : Sys), afterFrames P evFuel clock batches n s0 = some s →
      runLoop P evFuel clock batches (fuel + n) 0 s0 =
        runLoop P evFuel clock batches fuel n s := by
  intro n
  induction n with
  | zero =>
    intro fuel s h
    simp only [afterFrames, Option.some.injEq] at h
    subst h
    rfl
  | succ n ih =>
    intro fuel s h
    simp only [afterFrames] at h
    cases h1 : afterFrames P evFuel clock batches n s0 with
    | none => simp [h1] at h
    | some s1 =>
      rw [h1, Option.some_bind] at h
      by_cases hr : s1.eng.isRunning_ = true
      · rw [if_pos hr] at h
        have := ih (fuel + 1) s1 h1
        rw [show fuel + (n + 1) = fuel + 1 + n by omega, this]
        simp [runLoop, hr, h]
      · rw [if_neg hr] at h
        simp at h

theorem run_eq_of_quit (P : Platform) (evFuel fuel : Nat) (clock : Nat → Nat)
    (batches : Nat → List Event) (s : Sys) (hr : s.eng.isRunning_ = true) (hq : s.queue = [])
    (m : Nat) (hf : ∀ k, k < m + 1 → (batches k).length < evFuel)
    (hn : ∀ k, k < m → Event.quit ∉ batches k) (hquit : Event.quit ∈ batches m)
    (hfuel : m + 1 < fuel) :
    run P evFuel fuel clock batches s = some (framesState P clock batches (m + 1) false s) := by
  have h1 := afterFrames_quit P evFuel clock batches s hr hq m hf hn hquit
  obtain ⟨f, rfl⟩ : ∃ f, fuel = (f + 1) + (m + 1) := ⟨fuel - (m + 1) - 1, by omega⟩
  unfold run
  rw [runLoop_of_afterFrames P evFuel clock batches s (m + 1) (f + 1) _ h1]
  simp [runLoop, framesState]

/-! ## `isKeyDown` -/

theorem map_toupper_of_caseEq {n1 n2 : List Nat} (h : List.Forall₂ caseEq n1 n2) :
    n1.map toupper = n2.map toupper := by
  induction h with
  | nil => rfl
  | cons hab _ ih => simp [toupper_of_caseEq hab, ih]

/-- The result of `isKeyDown` depends on the name only through its
upper-cased C string. -/
theorem isKeyDown_eq_of_upper (P : Platform) (keys junk junk2 : Nat → Nat) (n1 n2 : List Nat)
    (h : (cstr n1).map toupper = (cstr n2).map toupper) :
    isKeyDown P keys junk (some n1) = isKeyDown P keys junk2 (some n2) := by
  rw [isKeyDown_some, isKeyDown_some]
  have h1 : ((cstr n1).take 31).map toupper = ((cstr n2).take 31).map toupper := by
    rw [List.map_take, List.map_take, h]
  have h2 : (cstr n1 = []) ↔ (cstr n2 = []) := by
    rw [← List.map_eq_nil_iff (f := toupper), h, List.map_eq_nil_iff]
  rw [h1]
  by_cases hc : cstr n1 = []
  · simp [hc, h2.1 hc]
  · have hc2 : ¬ cstr n2 = [] := fun h => hc (h2.2 h)
    simp [hc, hc2]

/-- C4: `isKeyDown` answers `false`, whatever the keyboard state and without
a failing store, for a null name, for an empty name, and for a name whose
normalised form (upper-cased first 31 characters) the platform's
`scancodeFromName` maps to `SDL_SCANCODE_UNKNOWN`. -/
theorem isKeyDown_absent_is_false (P : Platform) (keys junk : Nat → Nat)
    (name : Option (List Nat))
    (h : name = none ∨ ∃ mem, name = some mem ∧
      (cstr mem = [] ∨
        P.scancodeFromName (((cstr mem).take 31).map toupper) = SDL_SCANCODE_UNKNOWN)) :
    isKeyDown P keys junk name = some false := by
  rcases h with rfl | ⟨mem, rfl, h | h⟩
  · rfl
  · rw [isKeyDown_some]
    simp [h]
  · simp only [SDL_SCANCODE_UNKNOWN] at h
    rw [isKeyDown_some, h]
    simp

/-- C4 at the spec's inputs: the null name, the empty name and
"not_a_real_key" all give `false` while the key "A" is held. -/
theorem isKeyDown_absent_is_false_witness :
    isKeyDown demoPlatform demoKeys (fun _ => 7) none = some false ∧
    isKeyDown demoPlatform demoKeys (fun _ => 7) (some []) = some false ∧
    isKeyDown demoPlatform demoKeys (fun _ => 7) (some notARealKey) = some false :=
  ⟨isKeyDown_absent_is_false demoPlatform demoKeys (fun _ => 7) none (Or.inl rfl),
   isKeyDown_absent_is_false demoPlatform demoKeys (fun _ => 7) (some [])
     (Or.inr ⟨[], rfl, Or.inl rfl⟩),
   isKeyDown_absent_is_false demoPlatform demoKeys (fun _ => 7) (some notARealKey)
     (Or.inr ⟨notARealKey, rfl, Or.inr (by decide)⟩)⟩

/-- C5: `isKeyDown` is case-insensitive: two names that differ only in the
case of ASCII letters get the same answer, and a name gets the same answer as
its upper-cased form. -/
theorem isKeyDown_case_insensitive (P : Platform) (keys junk : Nat → Nat)
    (n1 n2 : List Nat) (h : List.Forall₂ caseEq n1 n2) :
    isKeyDown P keys junk (some n1) = isKeyDown P keys junk (some n2) ∧
      isKeyDown P keys junk (some n1) = isKeyDown P keys junk (some (n1.map toupper)) := by
  constructor
  · apply isKeyDown_eq_of_upper
    rw [← cstr_map_toupper, ← cstr_map_toupper, map_toupper_of_caseEq h]
  · apply isKeyDown_eq_of_upper
    rw [← cstr_map_toupper, ← cstr_map_toupper, List.map_map]
    congr 2
    funext c
    exact (toupper_idem c).symm

/-- C5 at the spec's inputs: "a" and "A" get the same answer, here `true`
since the key "A" is held. -/
theorem isKeyDown_case_insensitive_witness :
    List.Forall₂ caseEq [97] [65] ∧
    isKeyDown demoPlatform demoKeys (fun _ => 7) (some [97]) =
      isKeyDown demoPlatform demoKeys (fun _ => 7) (some [65]) ∧
    isKeyDown demoPlatform demoKeys (fun _ => 7) (some [65]) = some true :=
  ⟨List.Forall₂.cons (by unfold caseEq; decide) List.Forall₂.nil,
   (isKeyDown_case_insensitive demoPlatform demoKeys (fun _ => 7) [97] [65]
     (List.Forall₂.cons (by unfold caseEq; decide) List.Forall₂.nil)).1,
   by decide⟩

/-- C6: the copy into the 32-byte buffer never stores outside it and leaves
there, NUL-terminated, the upper-cased first 31 characters of the name (the
whole upper-cased name when it has at most 31 characters); `isKeyDown` of a
name equals `isKeyDown` of its first 31 characters, and it is `true` exactly
when the name is not empty and that key is recognised and held. -/
theorem isKeyDown_truncates_to_31 (P : Platform) (keys junk : Nat → Nat) (mem : List Nat) :
    (∃ buf, upperName junk mem = some buf ∧ buf.length = 32 ∧
      cstr buf = ((cstr mem).take 31).map toupper ∧
      cstr buf = if strlen mem ≤ 31 then (cstr mem).map toupper
        else ((cstr mem).take 31).map toupper) ∧
    isKeyDown P keys junk (some mem) = isKeyDown P keys junk (some ((cstr mem).take 31)) ∧
    isKeyDown P keys junk (some mem) =
      some (decide (cstr mem ≠ []) &&
        (decide (P.scancodeFromName (((cstr mem).take 31).map toupper) ≠ SDL_SCANCODE_UNKNOWN) &&
          (keys (P.scancodeFromName (((cstr mem).take 31).map toupper)) != 0))) := by
  refine ⟨?_, ?_, isKeyDown_some P keys junk mem⟩
  · obtain ⟨buf, h1, h2, h3⟩ := upperName_spec junk mem
    refine ⟨buf, h1, h2, h3, ?_⟩
    rw [h3]
    split
    · rename_i hle
      rw [List.take_of_length_le hle]
    · rfl
  · have h1 : cstr ((cstr mem).take 31) = (cstr mem).take 31 :=
      cstr_eq_self (fun b hb => cstr_ne_zero (List.mem_of_mem_take hb))
    have h2 : ((cstr mem).take 31 = []) ↔ (cstr mem = []) := by
      cases cstr mem <;> simp
    rw [isKeyDown_some, isKeyDown_some, h1, List.take_take, min_self]
    by_cases hc : cstr mem = []
    · have hc2 : (cstr mem).take 31 = [] := h2.2 hc
      simp [hc]
    · have hc2 : ¬ (cstr mem).take 31 = [] := fun h => hc (h2.1 h)
      simp only [ne_eq, hc, hc2, not_false_eq_true, decide_True]

/-- C6 on a name of 40 letters "a": the table knows the key made of 31
letters "A" and that key is held, so the answer is `true`. -/
theorem isKeyDown_truncates_to_31_witness :
    isKeyDown
      { scancodeName := fun _ => [],
        scancodeFromName := fun n => if n = List.replicate 31 65 then 9 else 0 }
      (fun sc => if sc = 9 then 1 else 0) (fun _ => 7) (some (List.replicate 40 97))
      = some true :=
  ((isKeyDown_truncates_to_31 _ _ _ _).2.2).trans (by decide)

/-! ## `handleEvents` -/

theorem polled_eventActions (P : Platform) (q : List Event) :
    polled (eventActions P q) = q.map some ++ [none] := by
  induction q with
  | nil => rfl
  | cons e q ih =>
    rw [eventActions_cons]
    unfold polled at ih ⊢
    cases e <;> simp [hookOf, List.filterMap_cons, ih]

theorem hookCalls_eventActions (P : Platform) (q : List Event) :
    hookCalls (eventActions P q) = q.filterMap (hookOf P) := by
  induction q with
  | nil => rfl
  | cons e q ih =>
    rw [eventActions_cons]
    unfold hookCalls at ih ⊢
    cases e <;> simp [hookOf, List.filter_cons, List.filterMap_cons, ih]

/-- C3: with fuel for the pending events, `handleEvents` returns with the
queue empty; it polled every pending event once, in arrival order, and then
found the queue empty; its hook calls are the batch with each key press
replaced by `onKeyDown(scancodeName(code))`, each key release by
`onKeyUp(scancodeName(code))` and every other event dropped, so key events
behind a quit event are still dispatched; the running flag is cleared exactly
when the batch holds a quit event. -/
theorem handleEvents_fifo_dispatch (P : Platform) (fuel : Nat) (s : Sys)
    (hfuel : s.queue.length < fuel) :
    ∃ s1, handleEvents P fuel s = some s1 ∧ s1.queue = [] ∧
      s1.trace = s.trace ++ eventActions P s.queue ∧
      polled s1.trace = polled s.trace ++ (s.queue.map some ++ [none]) ∧
      hookCalls s1.trace = hookCalls s.trace ++ s.queue.filterMap (hookOf P) ∧
      s1.eng = { s.eng with
        isRunning_ := s.eng.isRunning_ && !decide (Event.quit ∈ s.queue) } := by
  refine ⟨drained P s, handleEvents_eq_drained P s.queue fuel s rfl hfuel, rfl, rfl, ?_, ?_, rfl⟩
  · simp only [drained]
    rw [← polled_eventActions P s.queue]
    simp [polled, List.filterMap_append]
  · simp only [drained]
    rw [← hookCalls_eventActions P s.queue]
    simp [hookCalls, List.filter_append]

/-- C3 on the batch key-down 4, quit, key-up 4, unknown event 99: the hooks
called are `onKeyDown("A")` and then `onKeyUp("A")`, the latter behind the
quit event. -/
theorem handleEvents_fifo_dispatch_witness :
    ∃ s1, handleEvents demoPlatform 5
        (arrive [Event.keyDown 4, Event.quit, Event.keyUp 4, Event.other 99]
          (init okOutcome demoSys).2) = some s1 ∧
      s1.queue = [] ∧
      hookCalls s1.trace = [Action.onKeyDown [65], Action.onKeyUp [65]] ∧
      s1.eng.isRunning_ = false := by
  obtain ⟨s1, h1, h2, _, _, h5, h6⟩ := handleEvents_fifo_dispatch demoPlatform 5
    (arrive [Event.keyDown 4, Event.quit, Event.keyUp 4, Event.other 99]
      (init okOutcome demoSys).2) (by decide)
  refine ⟨s1, h1, h2, ?_, ?_⟩
  · rw [h5]
    decide
  · rw [h6]
    decide

/-! ## `cleanup` -/

/-- C7, the code at the failing input: after a successful `init()` that
obtained the renderer `r` and the window `w`, an explicit `cleanup()`
followed by the destructor calls `SDL_DestroyRenderer(r)` twice and
`SDL_DestroyWindow(w)` twice, since `cleanup` leaves both members set;
on an engine that never acquired them it makes no destroy call. -/
theorem cleanup_twice_destroys_twice (r w freq counter : Nat) :
    (destructor (cleanup
        (init { initRc := 0, window := some w, renderer := some r,
                freq := freq, counter := counter } demoSys).2)).trace.drop 5 =
      [Action.destroyRenderer r, Action.destroyWindow w, Action.sdlQuit,
       Action.destroyRenderer r, Action.destroyWindow w, Action.sdlQuit] ∧
    countDestroyRenderer r (destructor (cleanup
        (init { initRc := 0, window := some w, renderer := some r,
                freq := freq, counter := counter } demoSys).2)).trace = 2 ∧
    countDestroyWindow w (destructor (cleanup
        (init { initRc := 0, window := some w, renderer := some r,
                freq := freq, counter := counter } demoSys).2)).trace = 2 ∧
    (destructor (cleanup demoSys)).trace = [Action.sdlQuit, Action.sdlQuit] := by
  simp [destructor, cleanup, init, Sys.emit, demoSys, Sys.new, SDLEngine.new,
    countDestroyRenderer, countDestroyWindow]

/-! ## `init` -/

/-- C8: on an engine whose running flag is false, `init()` returns `true`
exactly when `SDL_Init`, the window creation and the renderer creation all
succeed; on a failure it returns `false` and the flag stays false, and after a
window failure the trace ends with the error report, no renderer creation
attempted; on success both handles are held, `perfFreq_` is the tick
frequency, `lastCounter_` the reading taken in `init()`, and the flag is true.
The flag is true after `init()` iff `init()` returned `true`. -/
theorem init_running_iff_success (o : InitOutcome) (s : Sys)
    (h : s.eng.isRunning_ = false) :
    (init o s).1 = o.succeeds ∧
    ((o.window = none ∨ o.renderer = none) →
      (init o s).1 = false ∧ (init o s).2.eng.isRunning_ = false) ∧
    (o.initRc = 0 → o.window = none →
      (init o s).2.trace = s.trace ++ [Action.sdlInit,
        Action.createWindow s.eng.title_ s.eng.width_ s.eng.height_ s.eng.flags_,
        Action.logError]) ∧
    ((init o s).1 = true →
      (init o s).2.eng.window_ = o.window ∧ o.window.isSome = true ∧
      (init o s).2.eng.renderer_ = o.renderer ∧ o.renderer.isSome = true ∧
      (init o s).2.eng.perfFreq_ = u64 o.freq ∧
      (init o s).2.eng.lastCounter_ = u64 o.counter ∧
      (init o s).2.trace = s.trace ++ [Action.sdlInit,
        Action.createWindow s.eng.title_ s.eng.width_ s.eng.height_ s.eng.flags_,
        Action.createRenderer o.window,
        Action.getPerformanceFrequency (u64 o.freq),
        Action.getPerformanceCounter (u64 o.counter)] ∧
      (init o s).2.eng.isRunning_ = true) ∧
    ((init o s).2.eng.isRunning_ = true ↔ (init o s).1 = true) := by
  obtain ⟨rc, win, ren, freq, counter⟩ := o
  by_cases hrc : rc = 0
  · cases win with
    | none => simp [init, InitOutcome.succeeds, Sys.emit, hrc, h]
    | some w =>
      cases ren with
      | none => simp [init, InitOutcome.succeeds, Sys.emit, hrc, h]
      | some r => simp [init, InitOutcome.succeeds, Sys.emit, hrc]
  · cases win <;> cases ren <;> simp [init, InitOutcome.succeeds, Sys.emit, hrc, h]

/-- C8 on the engine of `main.cpp`: with every platform call succeeding
`init()` returns `true` and the engine runs; with the window refused it
returns `false` and the engine does not run. -/
theorem init_running_iff_success_witness :
    demoSys.eng.isRunning_ = false ∧
    (init okOutcome demoSys).1 = true ∧
    (init okOutcome demoSys).2.eng.isRunning_ = true ∧
    (init { okOutcome with window := none } demoSys).1 = false ∧
    (init { okOutcome with window := none } demoSys).2.eng.isRunning_ = false :=
  ⟨rfl,
   (init_running_iff_success okOutcome demoSys rfl).1.trans rfl,
   ((init_running_iff_success okOutcome demoSys rfl).2.2.2.2).2 rfl,
   ((init_running_iff_success { okOutcome with window := none } demoSys rfl).2.1
     (Or.inl rfl)).1,
   ((init_running_iff_success { okOutcome with window := none } demoSys rfl).2.1
     (Or.inl rfl)).2⟩

/-! ## The frame loop -/

theorem counts_eventActions (P : Platform) (q : List Event) :
    countUpdate (eventActions P q) = 0 ∧ countRender (eventActions P q) = 0 ∧
      countPresent (eventActions P q) = 0 := by
  induction q with
  | nil => simp [eventActions, countUpdate, countRender, countPresent]
  | cons e q ih =>
    rw [eventActions_cons]
    simp only [countUpdate, countRender, countPresent] at ih ⊢
    obtain ⟨h1, h2, h3⟩ := ih
    cases e <;> simp [hookOf, List.countP_cons, List.countP_append, h1, h2, h3]

theorem counts_expectedFrame (P : Platform) (dt : Dt) (renderer : Option Nat) (now : Nat)
    (batch : List Event) :
    countUpdate (expectedFrame P dt renderer now batch) = 1 ∧
      countRender (expectedFrame P dt renderer now batch) = 1 ∧
      countPresent (expectedFrame P dt renderer now batch) = 1 := by
  obtain ⟨h1, h2, h3⟩ := counts_eventActions P batch
  simp only [countUpdate, countRender, countPresent] at h1 h2 h3 ⊢
  simp [expectedFrame, List.countP_cons, List.countP_append, h1, h2, h3]

theorem counts_expectedTrace (P : Platform) (last0 freq : Nat) (renderer : Option Nat)
    (clock : Nat → Nat) (batches : Nat → List Event) (m : Nat) :
    countUpdate (expectedTrace P last0 freq renderer clock batches m) = m ∧
      countRender (expectedTrace P last0 freq renderer clock batches m) = m ∧
      countPresent (expectedTrace P last0 freq renderer clock batches m) = m := by
  induction m with
  | zero => simp [expectedTrace, countUpdate, countRender, countPresent]
  | succ m ih =>
    obtain ⟨h1, h2, h3⟩ := ih
    obtain ⟨g1, g2, g3⟩ := counts_expectedFrame P (frameDt last0 freq clock m) renderer
      (u64 (clock m)) (batches m)
    rw [expectedTrace_succ]
    simp only [countUpdate, countRender, countPresent] at h1 h2 h3 g1 g2 g3 ⊢
    simp only [List.countP_append, h1, h2, h3, g1, g2, g3, and_self]

/-- C1: on a running engine (what a successful `init()` leaves), when the
first quit event arrives in the batch of frame `n` (`n ≥ 1`; frame `n` polls
`batches (n - 1)`), `run()` with enough fuel returns, having made exactly `n`
iterations: `update`, `render` and `SDL_RenderPresent` were each called `n`
more times, the running flag is false, and there is no iteration `n + 1`. -/
theorem run_quit_on_frame_n (P : Platform) (evFuel fuel n : Nat) (clock : Nat → Nat)
    (batches : Nat → List Event) (s : Sys)
    (hr : s.eng.isRunning_ = true) (hq : s.queue = []) (hn : 1 ≤ n)
    (hfirst : ∀ k, k < n - 1 → Event.quit ∉ batches k)
    (hquit : Event.quit ∈ batches (n - 1))
    (hev : ∀ k, k < n → (batches k).length < evFuel)
    (hfuel : n < fuel) :
    ∃ s1, run P evFuel fuel clock batches s = some s1 ∧
      s1.eng.isRunning_ = false ∧
      countUpdate s1.trace = countUpdate s.trace + n ∧
      countRender s1.trace = countRender s.trace + n ∧
      countPresent s1.trace = countPresent s.trace + n ∧
      afterFrames P evFuel clock batches n s = some s1 ∧
      afterFrames P evFuel clock batches (n + 1) s = none := by
  obtain ⟨m, rfl⟩ : ∃ m, n = m + 1 := ⟨n - 1, by omega⟩
  simp only [Nat.add_sub_cancel] at hfirst hquit
  have h1 := run_eq_of_quit P evFuel fuel clock batches s hr hq m hev hfirst hquit hfuel
  have h2 := afterFrames_quit P evFuel clock batches s hr hq m hev hfirst hquit
  obtain ⟨c1, c2, c3⟩ := counts_expectedTrace P s.eng.lastCounter_ s.eng.perfFreq_
    s.eng.renderer_ clock batches (m + 1)
  refine ⟨_, h1, rfl, ?_, ?_, ?_, h2, ?_⟩
  · unfold countUpdate at c1 ⊢
    simp only [framesState, List.countP_append, c1]
  · unfold countRender at c2 ⊢
    simp only [framesState, List.countP_append, c2]
  · unfold countPresent at c3 ⊢
    simp only [framesState, List.countP_append, c3]
  · rw [afterFrames, h2]
    simp [framesState]

/-- C1 at the spec's scenario: the quit event arrives on frame 3; after a
successful `init()` of the engine of `main.cpp`, `run()` returns after 3
calls each of `update`, `render` and `SDL_RenderPresent`. -/
theorem run_quit_on_frame_n_witness :
    ∃ s1, run demoPlatform 4 10 demoClock demoBatches (init okOutcome demoSys).2 = some s1 ∧
      s1.eng.isRunning_ = false ∧
      countUpdate s1.trace = 3 ∧ countRender s1.trace = 3 ∧ countPresent s1.trace = 3 := by
  obtain ⟨s1, h1, h2, h3, h4, h5, _⟩ := run_quit_on_frame_n demoPlatform 4 10 3 demoClock
    demoBatches (init okOutcome demoSys).2 (by decide) (by decide) (by decide)
    (by intro k hk; interval_cases k <;> decide) (by decide)
    (by intro k hk; interval_cases k <;> decide) (by decide)
  exact ⟨s1, h1, h2, h3.trans (by decide), h4.trans (by decide), h5.trans (by decide)⟩

/-- C2: every iteration of the loop of `run()` makes its calls in the order
read the counter, drain the event queue, `update(dt)`, `render()`,
`SDL_RenderPresent`: when the loop has completed `k` iterations and still
runs, it completes iteration `k + 1`, whose calls, appended to the trace, are
the counter reading, then the calls of `handleEvents` on the batch, then
`update` with the `dt` computed from that reading and the stored one, then
`render`, then the present; the reading is stored; and only then the loop
goes on, from the state so reached. -/
theorem frame_phase_order (P : Platform) (evFuel : Nat) (clock : Nat → Nat)
    (batches : Nat → List Event) (s a : Sys) (k : Nat) (hq : s.queue = [])
    (ha : afterFrames P evFuel clock batches k s = some a)
    (hr : a.eng.isRunning_ = true) (hev : (batches k).length < evFuel) :
    ∃ b, afterFrames P evFuel clock batches (k + 1) s = some b ∧
      b.trace = a.trace ++
        ([Action.getPerformanceCounter (u64 (clock k))] ++
          eventActions P (batches k) ++
          [Action.update { ticks := u64sub (u64 (clock k)) a.eng.lastCounter_,
                           freq := a.eng.perfFreq_ },
           Action.render,
           Action.renderPresent a.eng.renderer_]) ∧
      b.eng.lastCounter_ = u64 (clock k) ∧
      b.queue = [] ∧
      ∀ fuel, runLoop P evFuel clock batches (fuel + (k + 1)) 0 s =
        runLoop P evFuel clock batches fuel (k + 1) b := by
  have haq : a.queue = [] := (afterFrames_inv P evFuel clock batches s hq k a ha).1
  have hfr := frame_eq P evFuel (clock k) (batches k) a haq hev
  have hb : afterFrames P evFuel clock batches (k + 1) s =
      frame P evFuel (clock k) (batches k) a := by
    rw [afterFrames, ha, Option.some_bind, if_pos hr]
  rw [hfr] at hb
  refine ⟨_, hb, ?_, rfl, rfl, ?_⟩
  · simp [expectedFrame]
  · intro fuel
    exact runLoop_of_afterFrames P evFuel clock batches s (k + 1) fuel _ hb

/-- C2 on the second frame of the demo run (reading 37 after 21, a key press
of "A" pending): the calls are the counter read, the poll that finds the key
press, `onKeyDown("A")`, the poll that finds nothing, `update` with 16 ticks,
`render`, present. -/
theorem frame_phase_order_witness :
    ∃ a b, afterFrames demoPlatform 4 demoClock demoBatches 1 (init okOutcome demoSys).2
        = some a ∧
      afterFrames demoPlatform 4 demoClock demoBatches 2 (init okOutcome demoSys).2
        = some b ∧
      b.trace = a.trace ++
        [Action.getPerformanceCounter 37,
         Action.pollEvent (some (Event.keyDown 4)), Action.onKeyDown [65],
         Action.pollEvent none,
         Action.update { ticks := 16, freq := 1000 }, Action.render,
         Action.renderPresent (some 2)] := by
  have ha : afterFrames demoPlatform 4 demoClock demoBatches 1 (init okOutcome demoSys).2
      = some (framesState demoPlatform demoClock demoBatches 1 true
          (init okOutcome demoSys).2) := by decide
  obtain ⟨b, h1, h2, _⟩ := frame_phase_order demoPlatform 4 demoClock demoBatches
    (init okOutcome demoSys).2 _ 1 (by decide) ha (by decide) (by decide)
  exact ⟨_, b, ha, h1, h2.trans (by decide)⟩

/-! ## The running flag -/

theorem init_queue (o : InitOutcome) (s : Sys) : (init o s).2.queue = s.queue := by
  obtain ⟨rc, win, ren, freq, counter⟩ := o
  by_cases hrc : rc = 0 <;> cases win <;> cases ren <;> simp [init, Sys.emit, hrc]

theorem init_not_succeeds (o : InitOutcome) (s : Sys) (h : o.succeeds = false) :
    (init o s).2.eng.isRunning_ = s.eng.isRunning_ := by
  obtain ⟨rc, win, ren, freq, counter⟩ := o
  by_cases hrc : rc = 0 <;> cases win <;> cases ren <;>
    simp_all [init, Sys.emit, InitOutcome.succeeds]

theorem init_true_fields (o : InitOutcome) (s : Sys) (h : (init o s).1 = true) :
    (init o s).2.eng.isRunning_ = true ∧ (init o s).2.eng.lastCounter_ = u64 o.counter ∧
      (init o s).2.eng.perfFreq_ = u64 o.freq := by
  obtain ⟨rc, win, ren, freq, counter⟩ := o
  by_cases hrc : rc = 0 <;> cases win <;> cases ren <;> simp_all [init, Sys.emit]

theorem cleanup_fields (s : Sys) :
    (cleanup s).eng = s.eng ∧ (cleanup s).queue = s.queue := by
  unfold cleanup
  cases h1 : s.eng.renderer_ <;> cases h2 : s.eng.window_ <;> simp [Sys.emit, h2]

theorem applyOp_not_running (P : Platform) (evFuel pending : Nat) (op : Op) (s : Sys)
    (h : s.eng.isRunning_ = false) (hp : s.queue.length ≤ pending)
    (hinit : op.isSuccessfulInit = false) (hfuel : op.fuelOk evFuel pending = true) :
    ∃ s1, applyOp P evFuel op s = some s1 ∧ s1.eng.isRunning_ = false ∧
      s1.queue.length ≤ pending := by
  cases op with
  | init o =>
    refine ⟨_, rfl, ?_, ?_⟩
    · rw [init_not_succeeds o s hinit, h]
    · rw [init_queue]
      exact hp
  | handleEvents batch =>
    simp only [Op.fuelOk, decide_eq_true_eq] at hfuel
    refine ⟨drained P (arrive batch s), ?_, ?_, ?_⟩
    · exact handleEvents_eq_drained P _ evFuel _ rfl (by simp [arrive]; omega)
    · simp [drained, arrive, h]
    · simp [drained]
  | iteration now batch =>
    simp only [Op.fuelOk, decide_eq_true_eq] at hfuel
    refine ⟨_, frame_eq_gen P evFuel now batch s (by simp; omega), ?_, ?_⟩
    · simp [h]
    · simp
  | run fuel clock batches =>
    simp only [Op.fuelOk, decide_eq_true_eq] at hfuel
    obtain ⟨f, rfl⟩ : ∃ f, fuel = f + 1 := ⟨fuel - 1, by omega⟩
    exact ⟨s, by simp [applyOp, run, runLoop, h], h, hp⟩
  | cleanup =>
    obtain ⟨h1, h2⟩ := cleanup_fields s
    exact ⟨_, rfl, by rw [h1, h], by rw [h2]; exact hp⟩

theorem applyOps_not_running (P : Platform) (evFuel pending : Nat) :
    ∀ (ops : List Op) (s : Sys), s.eng.isRunning_ = false → s.queue.length ≤ pending →
      (∀ op ∈ ops, op.isSuccessfulInit = false) →
      (∀ op ∈ ops, op.fuelOk evFuel pending = true) →
      ∃ s1, applyOps P evFuel ops s = some s1 ∧ s1.eng.isRunning_ = false := by
  intro ops
  induction ops with
  | nil =>
    intro s h _ _ _
    exact ⟨s, rfl, h⟩
  | cons op ops ih =>
    intro s h hp hinit hfuel
    obtain ⟨s1, h1, h2, h3⟩ := applyOp_not_running P evFuel pending op s h hp
      (hinit op (List.mem_cons_self _ _)) (hfuel op (List.mem_cons_self _ _))
    obtain ⟨s2, h4, h5⟩ := ih s1 h2 h3
      (fun o ho => hinit o (List.mem_cons_of_mem _ ho))
      (fun o ho => hfuel o (List.mem_cons_of_mem _ ho))
    exact ⟨s2, by simp [applyOps, h1, h4], h5⟩

/-- C9 as stated fails: after a successful `init()` and a quit event the
running flag is false, and a further `init()` whose platform calls succeed
sets it to true again. -/
theorem running_again_after_second_init :
    (applyOps demoPlatform 4 [Op.init okOutcome, Op.handleEvents [Event.quit]] demoSys).map
        (fun s => s.eng.isRunning_) = some false ∧
    (applyOps demoPlatform 4
        [Op.init okOutcome, Op.handleEvents [Event.quit], Op.init okOutcome] demoSys).map
        (fun s => s.eng.isRunning_) = some true := by
  decide

/-- C9, amended: once the running flag is false, every sequence of engine
operations that holds no `init()` whose platform calls all succeed
(`handleEvents` on any batch, loop iterations, `run()`, `cleanup()`, failing
`init()`) completes, given fuel for the events, and leaves the flag false. -/
theorem not_running_stable_without_init (P : Platform) (evFuel : Nat) (ops : List Op)
    (s : Sys) (h : s.eng.isRunning_ = false)
    (hinit : ∀ op ∈ ops, op.isSuccessfulInit = false)
    (hfuel : ∀ op ∈ ops, op.fuelOk evFuel s.queue.length = true) :
    ∃ s1, applyOps P evFuel ops s = some s1 ∧ s1.eng.isRunning_ = false :=
  applyOps_not_running P evFuel s.queue.length ops s h (le_refl _) hinit hfuel

/-- C9, amended, on an engine stopped by a quit event: key events, a loop
iteration, `run()`, `cleanup()` and an `init()` that the platform refuses leave
the running flag false. -/
theorem not_running_stable_without_init_witness :
    ∃ s1, applyOps demoPlatform 4
        [Op.handleEvents [Event.keyDown 4, Event.keyUp 4], Op.iteration 99 [Event.other 7],
         Op.run 3 demoClock demoBatches, Op.cleanup,
         Op.init { okOutcome with renderer := none }]
        (drained demoPlatform (arrive [Event.quit] (init okOutcome demoSys).2)) = some s1 ∧
      s1.eng.isRunning_ = false :=
  not_running_stable_without_init demoPlatform 4 _ _ (by decide)
    (by intro op hop; simp only [List.mem_cons, List.mem_singleton, List.not_mem_nil,
          or_false] at hop
        rcases hop with rfl | rfl | rfl | rfl | rfl <;> rfl)
    (by intro op hop; simp only [List.mem_cons, List.mem_singleton, List.not_mem_nil,
          or_false] at hop
        rcases hop with rfl | rfl | rfl | rfl | rfl <;> decide)

/-! ## The frame clock -/

theorem updateDts_eventActions (P : Platform) (q : List Event) :
    updateDts (eventActions P q) = [] := by
  induction q with
  | nil => rfl
  | cons e q ih =>
    rw [eventActions_cons]
    unfold updateDts at ih ⊢
    cases e <;> simp [hookOf, List.filterMap_cons, ih]

theorem bitLengthAux_bounds (f : Nat) :
    ∀ n, n ≠ 0 → n ≤ f →
      2 ^ (bitLengthAux f n - 1) ≤ n ∧ n < 2 ^ bitLengthAux f n ∧ 1 ≤ bitLengthAux f n := by
  induction f with
  | zero => intro n h0 h; omega
  | succ f ih =>
    intro n h0 h
    simp only [bitLengthAux, h0, ↓reduceIte, Nat.add_sub_cancel]
    by_cases h2 : n / 2 = 0
    · have h1 : n = 1 := by omega
      have hz : bitLengthAux f (n / 2) = 0 := by
        rw [h2]
        cases f <;> simp [bitLengthAux]
      rw [hz, h1]
      simp
    · obtain ⟨h3, h4, h5⟩ := ih (n / 2) h2 (by omega)
      have h6 : 2 ^ bitLengthAux f (n / 2) = 2 * 2 ^ (bitLengthAux f (n / 2) - 1) := by
        rw [← pow_succ']
        congr 1
        omega
      refine ⟨by rw [h6]; omega, by rw [pow_succ]; omega, by omega⟩

theorem bitLength_bounds {n : Nat} (h : n ≠ 0) :
    2 ^ (bitLength n - 1) ≤ n ∧ n < 2 ^ bitLength n ∧ 1 ≤ bitLength n :=
  bitLengthAux_bounds n n h (le_refl _)

theorem roundShift_bounds (N sh : Nat) (sticky : Bool) :
    N / 2 ^ sh ≤ roundShift N sh sticky ∧ roundShift N sh sticky ≤ N / 2 ^ sh + 1 := by
  unfold roundShift
  simp only
  split_ifs <;> omega

theorem pack_geZero (m : Nat) (e : Int) : (F32.pack false m e).geZero = true := by
  unfold F32.pack
  split_ifs <;> rfl

theorem pack_fin (neg : Bool) (m : Nat) (e : Int) (hm : m ≠ 0) (he : e + 1 ≤ 104) :
    ∃ m1 e1, F32.pack neg m e = F32.fin neg m1 e1 ∧ m1 ≠ 0 := by
  unfold F32.pack
  rw [if_neg hm]
  split_ifs with c1 c2 c3
  · omega
  · exact ⟨_, _, rfl, by norm_num⟩
  · omega
  · exact ⟨_, _, rfl, hm⟩

/-- A non-zero 64-bit integer converts to a finite, positive `float`. -/
theorem ofNat_pos {n : Nat} (h0 : n ≠ 0) (h : n < 2 ^ 64) :
    ∃ m e, F32.ofNat n = F32.fin false m e ∧ m ≠ 0 := by
  have hb1 : bitLength 1 = 1 := by decide
  have hN0 : n * 2 ^ 27 ≠ 0 := by positivity
  obtain ⟨hlo, hhi, _⟩ := bitLength_bounds hN0
  have hB91 : bitLength (n * 2 ^ 27) ≤ 91 := by
    by_contra hgt
    have h1 : 2 ^ 91 ≤ 2 ^ (bitLength (n * 2 ^ 27) - 1) :=
      Nat.pow_le_pow_right (by norm_num) (by omega)
    have h2 : n * 2 ^ 27 < 2 ^ 64 * 2 ^ 27 := Nat.mul_lt_mul_of_pos_right h (by positivity)
    have h3 : (2 : Nat) ^ 64 * 2 ^ 27 = 2 ^ 91 := by norm_num
    omega
  unfold F32.ofNat F32.roundRatio
  rw [if_neg h0]
  simp only [hb1, Nat.div_one]
  apply pack_fin
  · have hb := (roundShift_bounds (n * 2 ^ (26 + 1))
      (max (0 - ((26 + 1 : Nat) : Int) + (bitLength (n * 2 ^ (26 + 1)) : Int) - 24) (-149)
        - (0 - ((26 + 1 : Nat) : Int))).toNat (decide (n * 2 ^ (26 + 1) % 1 ≠ 0))).1
    have hpos : 0 < n * 2 ^ (26 + 1) / 2 ^ (max (0 - ((26 + 1 : Nat) : Int) +
        (bitLength (n * 2 ^ (26 + 1)) : Int) - 24) (-149) - (0 - ((26 + 1 : Nat) : Int))).toNat := by
      apply Nat.div_pos _ (by positivity)
      refine le_trans (Nat.pow_le_pow_right (by norm_num) ?_) hlo
      have : (26 + 1 : Nat) = 27 := rfl
      rw [this]
      omega
    omega
  · have : (26 + 1 : Nat) = 27 := rfl
    rw [this]
    omega

/-- The `float` quotient of two 64-bit integers is `>= 0` unless both are 0,
where it is NaN. -/
theorem toF32_geZero_iff (t f : Nat) (ht : t < 2 ^ 64) (hf : f < 2 ^ 64) :
    (Dt.toF32 { ticks := t, freq := f }).geZero = true ↔ (t ≠ 0 ∨ f ≠ 0) := by
  unfold Dt.toF32
  simp only
  by_cases h1 : t = 0
  · by_cases h2 : f = 0
    · subst h1 h2
      simp [F32.ofNat, F32.div, F32.geZero]
    · obtain ⟨m2, e2, hm2, hne2⟩ := ofNat_pos h2 hf
      subst h1
      rw [hm2]
      simp [F32.ofNat, F32.div, F32.geZero, hne2, h2]
  · obtain ⟨m1, e1, hm1, hne1⟩ := ofNat_pos h1 ht
    rw [hm1]
    by_cases h2 : f = 0
    · subst h2
      simp [F32.ofNat, F32.div, F32.geZero, hne1, h1]
    · obtain ⟨m2, e2, hm2, hne2⟩ := ofNat_pos h2 hf
      rw [hm2]
      have : F32.div (F32.fin false m1 e1) (F32.fin false m2 e2) =
          F32.roundRatio false m1 m2 (e1 - e2) := by
        simp [F32.div, hne1, hne2]
      rw [this]
      unfold F32.roundRatio
      simp only [pack_geZero, true_iff]
      exact Or.inl h1

/-- C10 as stated fails, in two places. The counter may return the same
value twice (it is monotonic, not strictly so): with the reading of `init()`
and the reading of the first frame both 5, the first `dt` is 0 ticks and the
stored reading after the frame, 5, is not greater than the one stored before
it. And when on top of that the platform reports a tick frequency of 0, that
`dt` is `0.0f / 0.0f`, NaN, for which `dt >= 0` is false. -/
theorem last_reading_not_strictly_greater :
    (init okOutcome demoSys).1 = true ∧
    (init okOutcome demoSys).2.eng.lastCounter_ = 5 ∧
    (afterFrames demoPlatform 4 (fun _ => 5) (fun _ => []) 1 (init okOutcome demoSys).2).map
        (fun b => (b.eng.lastCounter_, updateDts b.trace)) =
      some (5, [{ ticks := 0, freq := 1000 }]) ∧
    (afterFrames demoPlatform 4 (fun _ => 5) (fun _ => []) 1 (init okOutcome demoSys).2).map
        (fun b => decide ((init okOutcome demoSys).2.eng.lastCounter_ < b.eng.lastCounter_)) =
      some false ∧
    (init { okOutcome with freq := 0 } demoSys).1 = true ∧
    (afterFrames demoPlatform 4 (fun _ => 5) (fun _ => []) 1
        (init { okOutcome with freq := 0 } demoSys).2).map
        (fun b => (updateDts b.trace).map fun d => (d, d.toF32, d.toF32.geZero)) =
      some [({ ticks := 0, freq := 0 }, F32.nan, false)] := by
  decide

/-- C10, amended: after a successful `init()`, with 64-bit counter readings
that never decrease, every frame `k` the loop reaches computes its `dt` from
the tick difference (reading of the frame - stored reading) over the tick
frequency, the stored reading being the one of `init()` for the first frame
and the reading of the previous frame after; the `float` `dt` is `>= 0` except
when the reading equals the stored one and the tick frequency is 0; after the
frame the stored reading is the reading of the frame, it is at least the one
stored before, and it is strictly greater exactly when the two readings
differ. -/
theorem dt_from_monotone_clock (P : Platform) (evFuel : Nat) (o : InitOutcome) (s0 : Sys)
    (clock : Nat → Nat) (batches : Nat → List Event) (k : Nat) (a : Sys)
    (hinit : (init o s0).1 = true) (hq : s0.queue = [])
    (hc0 : o.counter < 2 ^ 64) (hrange : ∀ j, j ≤ k → clock j < 2 ^ 64)
    (hfirst : o.counter ≤ clock 0) (hmono : ∀ j, j < k → clock j ≤ clock (j + 1))
    (ha : afterFrames P evFuel clock batches k (init o s0).2 = some a)
    (hr : a.eng.isRunning_ = true) (hev : (batches k).length < evFuel) :
    ∃ b, afterFrames P evFuel clock batches (k + 1) (init o s0).2 = some b ∧
      a.eng.lastCounter_ = (if k = 0 then o.counter else clock (k - 1)) ∧
      updateDts b.trace = updateDts a.trace ++
        [{ ticks := clock k - a.eng.lastCounter_, freq := u64 o.freq }] ∧
      ((Dt.toF32 { ticks := clock k - a.eng.lastCounter_, freq := u64 o.freq }).geZero = true ↔
        (a.eng.lastCounter_ ≠ clock k ∨ u64 o.freq ≠ 0)) ∧
      b.eng.lastCounter_ = clock k ∧
      a.eng.lastCounter_ ≤ b.eng.lastCounter_ ∧
      (a.eng.lastCounter_ < b.eng.lastCounter_ ↔ a.eng.lastCounter_ ≠ clock k) := by
  obtain ⟨_, hl0, hf0⟩ := init_true_fields o s0 hinit
  have hq1 : (init o s0).2.queue = [] := by rw [init_queue, hq]
  obtain ⟨haq, hal, haf, _⟩ := afterFrames_inv P evFuel clock batches _ hq1 k a ha
  have hlast : a.eng.lastCounter_ = (if k = 0 then o.counter else clock (k - 1)) := by
    rw [hal, hl0]
    cases k with
    | zero => exact u64_of_lt hc0
    | succ j => exact u64_of_lt (hrange j (by omega))
  have hle : a.eng.lastCounter_ ≤ clock k := by
    rw [hlast]
    cases k with
    | zero => exact hfirst
    | succ j => exact hmono j (by omega)
  have hk : clock k < 2 ^ 64 := hrange k (le_refl _)
  have hnow : u64 (clock k) = clock k := u64_of_lt hk
  have hfr := frame_eq P evFuel (clock k) (batches k) a haq hev
  have hb : afterFrames P evFuel clock batches (k + 1) (init o s0).2 =
      frame P evFuel (clock k) (batches k) a := by
    rw [afterFrames, ha, Option.some_bind, if_pos hr]
  rw [hfr] at hb
  refine ⟨_, hb, hlast, ?_, ?_, hnow, ?_, ?_⟩
  · have he := updateDts_eventActions P (batches k)
    unfold updateDts at he ⊢
    simp only [expectedFrame, List.filterMap_append, he, hnow,
      u64sub_eq_sub hle hk, haf, hf0]
    simp
  · rw [toF32_geZero_iff _ _ (by omega) (by simp only [u64]; omega)]
    constructor
    · rintro (h | h)
      · exact Or.inl (by omega)
      · exact Or.inr h
    · rintro (h | h)
      · exact Or.inl (by omega)
      · exact Or.inr h
  · simp only [hnow]
    exact hle
  · simp only [hnow]
    omega

/-- C10, amended, on the second frame of the demo run: the stored reading is
that of the first frame, 21; the reading is 37; `dt` is 16 ticks over 1000,
the `float` 8589935 * 2^-29 (0.016), which is `>= 0`. -/
theorem dt_from_monotone_clock_witness :
    ∃ b, afterFrames demoPlatform 4 demoClock demoBatches 2 (init okOutcome demoSys).2
        = some b ∧
      updateDts b.trace = [{ ticks := 16, freq := 1000 }, { ticks := 16, freq := 1000 }] ∧
      (updateDts b.trace).map Dt.toF32 =
        [F32.fin false 8589935 (-29), F32.fin false 8589935 (-29)] ∧
      (Dt.toF32 { ticks := 16, freq := 1000 }).geZero = true ∧
      b.eng.lastCounter_ = 37 := by
  have ha : afterFrames demoPlatform 4 demoClock demoBatches 1 (init okOutcome demoSys).2
      = some (framesState demoPlatform demoClock demoBatches 1 true
          (init okOutcome demoSys).2) := by decide
  obtain ⟨b, h1, _, h3, h4, h5, _⟩ := dt_from_monotone_clock demoPlatform 4 okOutcome demoSys
    demoClock demoBatches 1 _ (by decide) (by decide) (by decide)
    (by intro j hj; interval_cases j <;> decide) (by decide)
    (by intro j hj; interval_cases j; decide) ha (by decide) (by decide)
  have h3b : updateDts b.trace =
      [{ ticks := 16, freq := 1000 }, { ticks := 16, freq := 1000 }] := h3.trans (by decide)
  refine ⟨b, h1, h3b, ?_, h4.2 (Or.inr (by decide)), h5.trans (by decide)⟩
  rw [h3b]
  decide

end SAL
